import Mathlib

/-!
# MagistoryInstantVideo — verification of the timeline data model and renderers

Shallow embedding of the editor's timeline/segment data model, its mutation
operations (`components/VideoEditor`, given here as `src/unnamed/part_000`),
the interactive preview resolver (`components/PreviewWindow.tsx`), the
in-browser canvas export renderer (`components/ExportModal.tsx`) and the
server-side ffmpeg renderer (`services/render-server/src/renderer.ts`).

Times, durations and volumes are JS `number`s in the source; they are embedded
as rationals (`ℚ`).  JS string-interpolation identifiers are kept as string
concatenations.  `Date.now()` is embedded as an explicit clock `ℕ → ℕ` giving
the value returned by the i-th call inside one operation; successive calls of
`Date.now()` may or may not return the same millisecond, so theorems quantify
over the clock.
-/

namespace Magistory

/-- `WordTiming` from `types.ts`: `{ word, start, end }` (seconds, segment-relative).
The source field `end` is a Lean keyword and is embedded as `endTime`. -/
structure WordTiming where
  word : String
  start : ℚ
  endTime : ℚ
  deriving Repr, DecidableEq, Inhabited

/-- Media type discriminant of a `MediaClip` (`'image' | 'video'`). -/
inductive MClipType where
  | image
  | video
  deriving Repr, DecidableEq

/-- `MediaClip` from `types.ts`: `{ id, url, type }`. -/
structure MediaClip where
  id : String
  url : String
  mtype : MClipType
  deriving Repr, DecidableEq

/-- Caption block position (`'top' | 'center' | 'bottom'`). -/
inductive CaptionPosition where
  | top
  | center
  | bottom
  deriving Repr, DecidableEq

/-- Caption animation mode (`'none' | 'scale' | 'slide-up' | 'highlight'`). -/
inductive CaptionAnimation where
  | noAnim
  | scaleAnim
  | slideUp
  | highlight
  deriving Repr, DecidableEq

/-- `TextOverlayStyle` from `types.ts`. -/
structure TextOverlayStyle where
  fontFamily : String
  fontSize : ℚ
  color : String
  backgroundColor : String
  position : CaptionPosition
  animation : CaptionAnimation
  maxCaptionLines : ℕ
  deriving Repr, DecidableEq

/-- Transition effect on a segment's outgoing edge (`'fade' | 'slide' | 'zoom'`). -/
inductive TransitionEffect where
  | fade
  | slide
  | zoom
  deriving Repr, DecidableEq

/-- `Segment` from `types.ts`.  Optional source fields (`audioUrl?`,
`wordTimings?`, `textOverlayStyle?`) are embedded as `Option`. -/
structure Segment where
  id : String
  narration_text : String
  search_keywords_for_media : String
  media : List MediaClip
  duration : ℚ
  audioUrl : Option String
  wordTimings : Option (List WordTiming)
  audioVolume : ℚ
  transition : TransitionEffect
  textOverlayStyle : Option TextOverlayStyle
  deriving Repr, DecidableEq

/-- Background track type discriminant (`'music' | 'sfx'`). -/
inductive AudioTrackType where
  | music
  | sfx
  deriving Repr, DecidableEq

/-- `AudioClip` from `types.ts`: background music/SFX positioned on the
absolute timeline. -/
structure AudioClip where
  id : String
  url : String
  name : String
  atype : AudioTrackType
  startTime : ℚ
  duration : ℚ
  volume : ℚ
  deriving Repr, DecidableEq

/-- One history snapshot `{ segments, audioTracks }` (see the `history` state in
`part_000`). -/
structure ProjState where
  segments : List Segment
  audioTracks : List AudioClip
  deriving Repr, DecidableEq

/-- The `history` state of `VideoEditor` (`part_000`, lines 21-32):
`{ past, present, future }` over full `ProjState` snapshots. -/
structure EditorState where
  past : List ProjState
  present : ProjState
  future : List ProjState
  deriving Repr, DecidableEq

/-- `updateHistory` (`part_000`, lines 37-43): push the previous present onto
`past`, install the new snapshot, clear `future`. -/
def updateHistory (st : EditorState) (newSegments : List Segment)
    (newAudioTracks : List AudioClip) : EditorState :=
  { past := st.past ++ [st.present]
    present := { segments := newSegments, audioTracks := newAudioTracks }
    future := [] }

/-- `updateSegments` (`part_000`, lines 45-50) applied to an updater function:
the new segment list goes through `updateHistory` with the audio tracks kept. -/
def updateSegments (st : EditorState) (f : List Segment → List Segment) : EditorState :=
  updateHistory st (f st.present.segments) st.present.audioTracks

/-- JS truthiness of a `string | undefined` value (`undefined` and `""` are falsy). -/
def strTruthy : Option String → Bool
  | some s => s ≠ ""
  | none => false

/-- JS truthiness of a `number | undefined` value (`undefined` and `0` are
falsy; `NaN` does not exist in `ℚ`). -/
def numTruthy : Option ℚ → Bool
  | some q => q ≠ 0
  | none => false

/-- Numeric value of an optional JS number once known truthy. -/
def numVal : Option ℚ → ℚ
  | some q => q
  | none => 0

/-- `handleUpdateSegmentAudio` (`part_000`, lines 226-243): sets `audioUrl` on
the targeted segment; if the url is truthy and a truthy, positive
`audioDuration` is provided that is below the current `duration`, the
`duration` shrinks to it; otherwise the duration is kept. -/
def handleUpdateSegmentAudio (st : EditorState) (segmentId : String)
    (newAudioUrl : Option String) (audioDuration : Option ℚ) : EditorState :=
  updateSegments st (fun segs => segs.map (fun s =>
    if s.id = segmentId then
      let newDuration : ℚ :=
        if strTruthy newAudioUrl ∧ numTruthy audioDuration ∧ 0 < numVal audioDuration then
          if numVal audioDuration < s.duration then numVal audioDuration else s.duration
        else s.duration
      { s with audioUrl := newAudioUrl, duration := newDuration }
    else s))

/-- `handleUpdateSegmentDuration` (`part_000`, lines 273-279): writes
`newDuration` into the targeted segment, nothing else. -/
def handleUpdateSegmentDuration (st : EditorState) (segmentId : String)
    (newDuration : ℚ) : EditorState :=
  updateSegments st (fun segs => segs.map (fun s =>
    if s.id = segmentId then { s with duration := newDuration } else s))

/-- `handleDurationChange` (`PreviewWindow.tsx`, lines 169-172): the duration
input handler clamps the entered value with `Math.max(1, …)` before calling
`onUpdateDuration` (= `handleUpdateSegmentDuration`). -/
def handleDurationChange (st : EditorState) (segmentId : String)
    (inputValue : ℚ) : EditorState :=
  handleUpdateSegmentDuration st segmentId (max 1 inputValue)

/-- `handleDeleteSegment` (`part_000`, lines 157-182).  `confirmDelete` models
the `window.confirm` answer; the second component is the `alert` message shown,
if any.  On the reject path the updater returns `prev` unchanged but
`updateSegments` (hence `updateHistory`) still runs, so the snapshot stacks
move while the present project state stays identical. -/
def handleDeleteSegment (st : EditorState) (activeSegmentId : Option String)
    (confirmDelete : Bool) : EditorState × Option String :=
  match activeSegmentId with
  | none => (st, none)
  | some aid =>
    if confirmDelete then
      let prev := st.present.segments
      if prev.length ≤ 1 then
        (updateSegments st (fun p => p), some "Cannot delete the only segment.")
      else
        (updateSegments st (fun p => p.filter (fun s => ¬ s.id = aid)), none)
    else (st, none)

/-- Words joined by single spaces, as `timings.map(w => w.word).join(' ')`. -/
def joinWords (ws : List String) : String :=
  String.intercalate " " ws

/-- The two segments produced inside `handleSplitSegment` (`part_000`, lines
324-366) once validation has passed.  `clock i` is the value of the i-th
`Date.now()` call of the operation: calls 0 … media.length-1 mint the ids of
B's clip copies, call `media.length` mints B's segment id. -/
def splitPieces (original : Segment) (clock : ℕ → ℕ) (splitTime : ℚ) :
    Segment × Segment :=
  let durA := splitTime
  let durB := original.duration - splitTime
  let outcome : String × String × Option (List WordTiming) × Option (List WordTiming) :=
    match original.wordTimings with
    | some ts =>
      if 0 < ts.length then
        let timingsA := ts.filter (fun w => w.endTime ≤ splitTime)
        let timingsB := (ts.filter (fun w => splitTime < w.endTime)).map (fun w =>
          { w with start := w.start - splitTime, endTime := w.endTime - splitTime })
        (joinWords (timingsA.map (·.word)), joinWords (timingsB.map (·.word)),
          some timingsA, some timingsB)
      else (original.narration_text, "", none, none)
    | none => (original.narration_text, "", none, none)
  let textA := outcome.1
  let textB := outcome.2.1
  let timingsA := outcome.2.2.1
  let timingsB := outcome.2.2.2
  let mediaB := original.media.enum.map (fun p =>
    { p.2 with id := "clip-" ++ toString (clock p.1) ++ "-split" })
  let segA : Segment :=
    { original with
        duration := durA
        narration_text := textA
        wordTimings := timingsA
        audioUrl := none }
  let segB : Segment :=
    { original with
        id := "segment-" ++ toString (clock original.media.length) ++ "-split"
        duration := durB
        narration_text := textB
        wordTimings := timingsB
        media := mediaB
        audioUrl := none }
  (segA, segB)

/-- `handleSplitSegment` (`part_000`, lines 314-373).  Returns the new editor
state together with the `alert` message, if one was shown.  A split point
closer than 0.5 s to either edge is rejected before any state update. -/
def handleSplitSegment (st : EditorState) (clock : ℕ → ℕ) (segmentId : String)
    (splitTime : ℚ) : EditorState × Option String :=
  let segments := st.present.segments
  match segments.find? (fun s => s.id = segmentId) with
  | none => (st, none)
  | some original =>
    if splitTime < 1/2 ∨ original.duration - 1/2 < splitTime then
      (st, some "Split point too close to edge.")
    else
      let index := segments.findIdx (fun s => s.id = segmentId)
      let pieces := splitPieces original clock splitTime
      let newSegments :=
        segments.take index ++ [pieces.1, pieces.2] ++ segments.drop (index + 1)
      (updateSegments st (fun _ => newSegments), none)

/-- Sum of segment durations, as `segments.reduce((acc, s) => acc + s.duration, 0)`
(`ExportModal.tsx`, line 300). -/
def durSum (segs : List Segment) : ℚ :=
  (segs.map (·.duration)).sum

/-- The object returned by `currentRenderState` (`PreviewWindow.tsx`, lines
79-93): the active segment, local time and clip index at the cursor.  The
source also returns `clip = segment.media[clipIndex]`, which is determined by
the other fields; `segIdx` (the position of the segment in the list) is added
to the embedding so the two renderers' selections can be compared. -/
structure ResolvedFrame where
  segIdx : ℕ
  segment : Segment
  localTime : ℚ
  clipIndex : ℤ
  deriving Repr, DecidableEq

/-- Clip sub-slice index: `Math.min(media.length - 1, Math.floor(localTime /
clipDuration))` with `clipDuration = duration / media.length`.  (For
`media = []` JS divides by zero and yields `-1`; every claim assumes non-empty
media, where the formulas agree.) -/
def clipIndexOf (seg : Segment) (localTime : ℚ) : ℤ :=
  let clipDuration := seg.duration / (seg.media.length : ℚ)
  min ((seg.media.length : ℤ) - 1) ⌊localTime / clipDuration⌋

/-- Loop body of `currentRenderState`: walk the segments accumulating
`elapsed`; `idx` counts segments already passed. -/
def resolveAux (currentTime : ℚ) : ℚ → ℕ → List Segment → Option ResolvedFrame
  | _, _, [] => none
  | elapsed, idx, seg :: rest =>
    if elapsed ≤ currentTime ∧ currentTime < elapsed + seg.duration then
      let localTime := currentTime - elapsed
      some ⟨idx, seg, localTime, clipIndexOf seg localTime⟩
    else
      resolveAux currentTime (elapsed + seg.duration) (idx + 1) rest

/-- `currentRenderState` (`PreviewWindow.tsx`, lines 79-93): resolve the global
cursor to (segment, localTime, clipIndex), or `none` past the end. -/
def currentRenderState (currentTime : ℚ) (segments : List Segment) :
    Option ResolvedFrame :=
  resolveAux currentTime 0 0 segments

/-- Helper for `segmentStartTimes`: start times of a segment list shifted by a
base offset. -/
def startTimesFrom (base : ℚ) : List Segment → List ℚ
  | [] => []
  | s :: rest => base :: startTimesFrom (base + s.duration) rest

/-- `segmentStartTimes` (`ExportModal.tsx`, lines 304-309): the reduce builds
`acc[0] = 0`, `acc[i] = acc[i-1] + segments[i-1].duration`. -/
def segmentStartTimes (segments : List Segment) : List ℚ :=
  startTimesFrom 0 segments

/-- Placeholder for a JS `undefined` segment lookup; only reachable outside the
hypotheses of the claims (empty segment list). -/
def undefinedSegment : Segment :=
  { id := "", narration_text := "", search_keywords_for_media := "", media := []
    duration := 0, audioUrl := none, wordTimings := none, audioVolume := 1
    transition := .fade, textOverlayStyle := none }

/-- The per-frame selection made by `renderFrame` (`ExportModal.tsx`, lines
311-341): segment index via `findIndex` over `segmentStartTimes` (with the
source's `-1` fallback), then `timeInSegment` and the clip index. -/
structure ExportFrame where
  segmentIndex : ℕ
  segment : Segment
  timeInSegment : ℚ
  clipIndex : ℤ
  deriving Repr, DecidableEq

/-- Segment/clip lookup of `renderFrame` (`ExportModal.tsx`, lines 311-341) at
render time `totalTime`. -/
def renderFrameResolve (segments : List Segment) (totalTime : ℚ) : ExportFrame :=
  let startTimes := segmentStartTimes segments
  let totalDuration := durSum segments
  let found := ((startTimes.zip segments).findIdx? (fun p =>
    decide (p.1 ≤ totalTime ∧ totalTime < p.1 + p.2.duration)))
  let segmentIndex : ℕ :=
    match found with
    | some i => i
    | none => if totalDuration ≤ totalTime then segments.length - 1 else 0
  let currentSegment := segments.getD segmentIndex undefinedSegment
  let segmentStartTime := startTimes.getD segmentIndex 0
  let timeInSegment := totalTime - segmentStartTime
  ⟨segmentIndex, currentSegment, timeInSegment, clipIndexOf currentSegment timeInSegment⟩

/-! ## Subtitle chunking and the three caption paths -/

/-- A caption page `{ start, end, timings }` as produced by
`generateSubtitleChunks`. -/
structure Chunk where
  start : ℚ
  endTime : ℚ
  timings : List WordTiming
  deriving Repr, DecidableEq

/-- Modelled from the spec: `generateSubtitleChunks` is defined in
`utils/media`, which is not among the provided sources (only its import sites
are).  Per §4.1 it greedily packs words into lines using a deterministic
estimated pixel width (character count × fontSize factor; 0.6 is the factor
chosen here), closes a line when the next word would exceed `maxPixelWidth`
(an over-wide single word still gets its own line), closes a chunk once
`maxLines` lines are filled (`start` = first word's start, `end` = last
word's end), and yields `[]` on empty input. -/
def estimatedWordWidth (fontSize : ℚ) (w : String) : ℚ :=
  (w.length : ℚ) * fontSize * (6/10)

/-- Modelled from the spec: greedy line/chunk packing loop of
`generateSubtitleChunks` (see `estimatedWordWidth`).  State: words collected in
the current chunk, lines already closed in it, current line width. -/
def chunkLoop (fontSize : ℚ) (maxLines : ℕ) (maxPixelWidth : ℚ) :
    List WordTiming → List WordTiming → ℕ → ℚ → List Chunk
  | [], [], _, _ => []
  | [], acc, _, _ =>
    [⟨(acc.headI).start, (acc.getLastD (acc.headI)).endTime, acc⟩]
  | w :: rest, acc, linesDone, lineWidth =>
    let ww := estimatedWordWidth fontSize w.word
    if lineWidth + ww ≤ maxPixelWidth ∨ lineWidth = 0 then
      chunkLoop fontSize maxLines maxPixelWidth rest (acc ++ [w]) linesDone (lineWidth + ww)
    else if linesDone + 1 < maxLines then
      chunkLoop fontSize maxLines maxPixelWidth rest (acc ++ [w]) (linesDone + 1) ww
    else
      ⟨(acc.headI).start, (acc.getLastD (acc.headI)).endTime, acc⟩ ::
        chunkLoop fontSize maxLines maxPixelWidth rest [w] 0 ww

/-- Modelled from the spec: `generateSubtitleChunks(timings, fontSize,
maxLines, maxPixelWidth) -> Chunk[]` (§4.1); see `chunkLoop`. -/
def generateSubtitleChunks (timings : List WordTiming) (fontSize : ℚ)
    (maxLines : ℕ) (maxPixelWidth : ℚ) : List Chunk :=
  chunkLoop fontSize maxLines maxPixelWidth timings [] 0 0

/-- `renderKaraokeText` (`PreviewWindow.tsx`, lines 235-297), abstracted to the
caption chunk it displays (`none` = the function returns `null` and no caption
is rendered).  Guards in source order: no render state, no style, empty
narration text, then missing/empty `wordTimings`. -/
def renderKaraokeText (rs : Option ResolvedFrame) : Option Chunk :=
  match rs with
  | none => none
  | some r =>
    let renderSeg := r.segment
    match renderSeg.textOverlayStyle with
    | none => none
    | some currentStyle =>
      if renderSeg.narration_text = "" then none
      else
        match renderSeg.wordTimings with
        | none => none
        | some timings =>
          if timings.length = 0 then none
          else
            let localTime := r.localTime
            let maxLines := if currentStyle.maxCaptionLines = 0 then 2
              else currentStyle.maxCaptionLines
            let subtitleChunks :=
              generateSubtitleChunks timings currentStyle.fontSize maxLines 800
            let activeChunk := subtitleChunks.find? (fun c =>
              decide (c.start ≤ localTime ∧ localTime ≤ c.endTime))
            match activeChunk with
            | some c => some c
            | none => if localTime < 1/10 then subtitleChunks.head? else none

/-- Canvas render resolution (`ExportModal.tsx`, lines 17-18). -/
def RENDER_WIDTH : ℚ := 1280

/-- `drawKaraokeText` (`ExportModal.tsx`, lines 47-83), abstracted to the
caption chunk it draws on the canvas (`none` = early return, nothing drawn).
Guards in source order: empty text or missing style, then missing/empty
`wordTimings`. -/
def drawKaraokeText (segment : Segment) (currentTimeInSegment : ℚ) : Option Chunk :=
  match segment.textOverlayStyle with
  | none => none
  | some style =>
    if segment.narration_text = "" then none
    else
      match segment.wordTimings with
      | none => none
      | some timings =>
        if timings.length = 0 then none
        else
          let maxWidth := RENDER_WIDTH * (9/10)
          let maxLines := if style.maxCaptionLines = 0 then 2 else style.maxCaptionLines
          let chunks := generateSubtitleChunks timings style.fontSize maxLines maxWidth
          let activeChunk := chunks.find? (fun c =>
            decide (c.start ≤ currentTimeInSegment ∧ currentTimeInSegment ≤ c.endTime))
          match activeChunk with
          | some c => some c
          | none => if currentTimeInSegment < 1/10 then chunks.head? else none

/-! ## Server-side ffmpeg renderer (`services/render-server/src/renderer.ts`) -/

/-- One `Dialogue:` event of the generated `.ass` subtitle file.  `fmtTime`
in the source only formats these rationals as `H:MM:SS.cc` strings. -/
structure DialogueEvent where
  start : ℚ
  endTime : ℚ
  text : String
  deriving Repr, DecidableEq

/-- `MAX_CHARS` (`renderer.ts`, line 104). -/
def MAX_CHARS : ℕ := 50

/-- Line-breaking loop of `createASSFile` (`renderer.ts`, lines 108-126): flush
the current line when the next word would push it past `MAX_CHARS`; the last
flushed line ends at `fmtTime(duration)` rather than its last word's end. -/
def assLoop (duration : ℚ) : List WordTiming → List WordTiming → ℕ → List DialogueEvent
  | [], [], _ => []
  | [], currentLine, _ =>
    [⟨(currentLine.headI).start, duration, joinWords (currentLine.map (·.word))⟩]
  | t :: rest, currentLine, currentLen =>
    if MAX_CHARS < currentLen + t.word.length ∧ 0 < currentLine.length then
      ⟨(currentLine.headI).start, (currentLine.getLastD (currentLine.headI)).endTime,
          joinWords (currentLine.map (·.word))⟩ ::
        assLoop duration rest [t] (t.word.length + 1)
    else
      assLoop duration rest (currentLine ++ [t]) (currentLen + t.word.length + 1)

/-- `createASSFile` (`renderer.ts`, lines 75-129), abstracted to the list of
`Dialogue:` events it writes.  With missing or empty `timings` it emits a
single event carrying the segment's full narration `text` across
`[0, duration]` — a substitute caption produced at render time. -/
def createASSEvents (text : String) (timings : Option (List WordTiming))
    (duration : ℚ) : List DialogueEvent :=
  match timings with
  | none => [⟨0, duration, text⟩]
  | some ts =>
    if ts.length = 0 then [⟨0, duration, text⟩]
    else assLoop duration ts [] 0

/-- Call-site guard in `renderVideo` (`renderer.ts`, lines 184-188 and
238-242): an `.ass` file is generated and burned in exactly when
`seg.narration_text` is truthy. -/
def segmentSubtitleEvents (seg : Segment) (exactDuration : ℚ) : List DialogueEvent :=
  if seg.narration_text = "" then []
  else createASSEvents seg.narration_text seg.wordTimings exactDuration

/-- `transitionDur` (`renderer.ts`, line 167). -/
def transitionDur : ℚ := 1/2

/-- Per-clip rendered duration (`renderer.ts`, lines 167-171):
`(exactDuration + Math.max(0, numClips - 1) * transitionDur) / Math.max(1, numClips)`. -/
def perClipDuration (exactDuration : ℚ) (numClips : ℕ) : ℚ :=
  let totalOverlapTime := ((max 0 ((numClips : ℤ) - 1) : ℤ) : ℚ) * transitionDur
  let requiredTotalRawDuration := exactDuration + totalOverlapTime
  requiredTotalRawDuration / ((max 1 numClips : ℕ) : ℚ)

/-- Cross-fade offset loop of `renderVideo` (`renderer.ts`, lines 219-233) over
the clip durations: `currentOffset` starts at the first clip's duration, each
boundary fades at `currentOffset - transitionDur`, then
`currentOffset += duration - transitionDur`. -/
def xfadeLoop (currentOffset : ℚ) : List ℚ → List ℚ
  | [] => []
  | d :: rest =>
    (currentOffset - transitionDur) :: xfadeLoop (currentOffset + (d - transitionDur)) rest

/-- The list of xfade offsets for a segment's clip durations (`renderer.ts`,
lines 219-233); empty for 0 or 1 clips. -/
def xfadeOffsets : List ℚ → List ℚ
  | [] => []
  | d0 :: rest => xfadeLoop d0 rest

/-- Timeline length covered by the first `j+1` clips after `j` overlapping
cross-fades, all clips having rendered duration `perClip`: the cumulative
rendered time at the `j`-th clip boundary. -/
def cumulativeRendered (perClip : ℚ) (j : ℕ) : ℚ :=
  ((j : ℚ) + 1) * perClip - (j : ℚ) * transitionDur

/-! ## Background audio mixing (`renderer.ts`, lines 283-317) -/

/-- The `adelay`/`volume` filter parameters built for one background track
(`renderer.ts`, lines 290-300): `delayMs = Math.round(track.startTime * 1000)`
and `volume = track.volume || 0.5` (JS `||`: a zero volume falls back to 0.5). -/
structure TrackFilter where
  delayMs : ℤ
  volume : ℚ
  deriving Repr, DecidableEq

/-- Build the filter parameters for one background `AudioClip`
(`renderer.ts`, lines 294-297). -/
def buildTrackFilter (track : AudioClip) : TrackFilter :=
  { delayMs := round (track.startTime * 1000)
    volume := if track.volume = 0 then 1/2 else track.volume }

/-- The `amix` stage built by `renderVideo` (`renderer.ts`, lines 302-307):
present exactly when at least one background track exists, with
`inputs = tracks + narration`, `duration=first` and `dynaudnorm`. -/
structure MixConfig where
  inputs : ℕ
  durationFirst : Bool
  normalized : Bool
  deriving Repr, DecidableEq

/-- Filter construction of step 3 of `renderVideo` (`renderer.ts`, lines
283-317): per-track `adelay`+`volume` filters plus the `amix`/`dynaudnorm`
stage (absent when there are no background tracks, where the narration audio
is mapped through unchanged). -/
def buildAudioMix (tracks : List AudioClip) : List TrackFilter × Option MixConfig :=
  (tracks.map buildTrackFilter,
    if 0 < tracks.length then
      some { inputs := tracks.length + 1, durationFirst := true, normalized := true }
    else none)

/-- Modelled from the spec: the sample contributed at absolute output time `t`
by one background track after its `adelay`/`volume` filters (§4.4 audio
assembly; ffmpeg itself is outside the provided sources).  `sig` is the
decoded clip of length `clipLen` (segment-local sample function); `adelay`
shifts it by `delayMs` milliseconds and `volume` scales it; outside the shifted
window the track contributes silence. -/
def trackContribution (tf : TrackFilter) (clipLen : ℚ) (sig : ℚ → ℚ) (t : ℚ) : ℚ :=
  let d : ℚ := (tf.delayMs : ℚ) / 1000
  if d ≤ t ∧ t < d + clipLen then tf.volume * sig (t - d) else 0

/-! ## Theorems -/

/-- C10: `updateDuration` through the duration input (`handleDurationChange` →
`handleUpdateSegmentDuration`) clamps the entered value to a minimum of 1
second and only rewrites the targeted segment's `duration` field: every other
segment, every other field of the target, and the audio tracks are unchanged. -/
theorem updateDuration_clamps_and_is_frame_local (st : EditorState)
    (segmentId : String) (inputValue : ℚ) (i : ℕ) :
    (handleDurationChange st segmentId inputValue).present.audioTracks =
        st.present.audioTracks ∧
    (handleDurationChange st segmentId inputValue).present.segments.length =
        st.present.segments.length ∧
    (1 : ℚ) ≤ max 1 inputValue ∧
    (handleDurationChange st segmentId inputValue).present.segments[i]? =
      (st.present.segments[i]?).map (fun s =>
        if s.id = segmentId then { s with duration := max 1 inputValue } else s) := by
  refine ⟨rfl, by simp [handleDurationChange, handleUpdateSegmentDuration,
    updateSegments, updateHistory], le_max_left 1 inputValue, ?_⟩
  simp [handleDurationChange, handleUpdateSegmentDuration, updateSegments,
    updateHistory, List.getElem?_map]

/-- C6: `updateAudio` (`handleUpdateSegmentAudio`) with a non-empty url and a
positive measured duration sets `audioUrl` on the targeted segment and shrinks
`duration` to the measured duration exactly when it is below the current one,
never growing it; all other segments and fields are unchanged. -/
theorem updateAudio_sets_url_and_shrinks_only (st : EditorState)
    (segmentId : String) (url : String) (measured : ℚ) (i : ℕ)
    (hurl : url ≠ "") (hpos : 0 < measured) :
    (handleUpdateSegmentAudio st segmentId (some url) (some measured)).present.audioTracks =
        st.present.audioTracks ∧
    (handleUpdateSegmentAudio st segmentId (some url) (some measured)).present.segments[i]? =
      (st.present.segments[i]?).map (fun s =>
        if s.id = segmentId then
          { s with audioUrl := some url
                   duration := if measured < s.duration then measured else s.duration }
        else s) := by
  refine ⟨rfl, ?_⟩
  have htr : strTruthy (some url) = true := by simp [strTruthy, hurl]
  have hnum : numTruthy (some measured) = true := by
    simp [numTruthy]
    exact ne_of_gt hpos
  simp only [handleUpdateSegmentAudio, updateSegments, updateHistory,
    List.getElem?_map]
  cases st.present.segments[i]? with
  | none => rfl
  | some s =>
    by_cases hid : s.id = segmentId
    · simp [hid, htr, hnum, numVal, hpos]
    · simp [hid]

/-- Helper: the present project state survives a history push that re-installs
the same segments and tracks. -/
theorem present_updateSegments_id (st : EditorState) :
    (updateSegments st (fun p => p)).present = st.present := by
  cases st with
  | mk past present future => cases present with
    | mk segments audioTracks => rfl

/-- C4: `splitSegment` with a split point closer than 0.5 s to either edge is
rejected: the `alert` message is produced and the editor state — history,
segment list and audio tracks — is returned untouched (the split point is
never clamped into range). -/
theorem splitSegment_rejects_near_edges (st : EditorState) (clock : ℕ → ℕ)
    (segmentId : String) (splitTime : ℚ) (original : Segment)
    (hfind : st.present.segments.find? (fun s => s.id = segmentId) = some original)
    (hbad : splitTime < 1/2 ∨ original.duration - 1/2 < splitTime) :
    handleSplitSegment st clock segmentId splitTime =
      (st, some "Split point too close to edge.") := by
  simp only [handleSplitSegment, hfind]
  rw [if_pos hbad]

/-- C7: `deleteSegment` (`handleDeleteSegment`) keeps the segment-list
invariant `length ≥ 1`: on a single-segment project it is rejected with a
user-facing message and the present project state is unchanged; with at least
two segments it removes exactly the segments matching the target id (one
segment, when ids are unique), leaving at least one behind. -/
theorem deleteSegment_preserves_nonempty (st : EditorState) (aid : String) :
    (st.present.segments.length = 1 →
      (handleDeleteSegment st (some aid) true).1.present = st.present ∧
      (handleDeleteSegment st (some aid) true).2 =
        some "Cannot delete the only segment.") ∧
    (2 ≤ st.present.segments.length →
      (handleDeleteSegment st (some aid) true).1.present.segments =
        st.present.segments.filter (fun s => ¬ s.id = aid) ∧
      (handleDeleteSegment st (some aid) true).2 = none ∧
      (handleDeleteSegment st (some aid) true).1.present.audioTracks =
        st.present.audioTracks ∧
      (st.present.segments.countP (fun s => s.id = aid) = 1 →
        (handleDeleteSegment st (some aid) true).1.present.segments.length + 1 =
          st.present.segments.length ∧
        1 ≤ (handleDeleteSegment st (some aid) true).1.present.segments.length)) := by
  constructor
  · intro hlen
    have hle : st.present.segments.length ≤ 1 := le_of_eq hlen
    constructor
    · simp only [handleDeleteSegment, if_true]
      rw [if_pos hle]
      exact present_updateSegments_id st
    · simp only [handleDeleteSegment, if_true]
      rw [if_pos hle]
  · intro hlen
    have hnle : ¬ st.present.segments.length ≤ 1 := by omega
    have hbranch :
        handleDeleteSegment st (some aid) true =
          (updateSegments st (fun p => p.filter (fun s => ¬ s.id = aid)), none) := by
      simp only [handleDeleteSegment, if_true]
      rw [if_neg hnle]
    refine ⟨by rw [hbranch]; rfl, by rw [hbranch], by rw [hbranch]; rfl, ?_⟩
    intro hcount
    have hfl :
        (handleDeleteSegment st (some aid) true).1.present.segments =
          st.present.segments.filter (fun s => ¬ s.id = aid) := by
      rw [hbranch]; rfl
    have hsplit :=
      List.length_eq_countP_add_countP (fun s : Segment => s.id = aid)
        st.present.segments
    have hfilter :
        (st.present.segments.filter (fun s => ¬ s.id = aid)).length =
          st.present.segments.countP (fun s => ¬ s.id = aid) :=
      (List.countP_eq_length_filter _ _).symm
    have hsame :
        st.present.segments.countP
            (fun s => decide ¬((fun s : Segment => decide (s.id = aid)) s = true)) =
          st.present.segments.countP (fun s => ¬ s.id = aid) := by
      apply List.countP_congr
      intro s _
      simp
    rw [hfl, hfilter]
    rw [hsame, hcount] at hsplit
    omega

/-! ## Concrete fixtures for witnesses and counterexamples -/

/-- A concrete image clip. -/
def clipA : MediaClip := { id := "a", url := "uA", mtype := .image }

/-- A concrete video clip. -/
def clipB : MediaClip := { id := "b", url := "uB", mtype := .video }

/-- A concrete one-clip segment of duration 5. -/
def segW : Segment :=
  { id := "s1", narration_text := "hello world", search_keywords_for_media := ""
    media := [clipA], duration := 5, audioUrl := none, wordTimings := none
    audioVolume := 1, transition := .fade, textOverlayStyle := none }

/-- A single-segment editor state. -/
def stW : EditorState :=
  { past := [], present := { segments := [segW], audioTracks := [] }, future := [] }

/-- A two-segment editor state (ids `s1`, `s2`). -/
def st2 : EditorState :=
  { past := []
    present :=
      { segments := [segW, { segW with id := "s2", duration := 3, media := [clipB] }]
        audioTracks := [] }
    future := [] }

/-- Witness for C6: `measuredDuration = 3` on `duration = 5` shrinks to 3 (the
`if` in the conclusion reduces to the measured value there). -/
theorem updateAudio_sets_url_and_shrinks_only_witness :
    ("u" : String) ≠ "" ∧ (0:ℚ) < 3 ∧
    ((handleUpdateSegmentAudio stW "s1" (some "u") (some 3)).present.audioTracks =
        stW.present.audioTracks ∧
      (handleUpdateSegmentAudio stW "s1" (some "u") (some 3)).present.segments[0]? =
        (stW.present.segments[0]?).map (fun s =>
          if s.id = "s1" then
            { s with audioUrl := some "u"
                     duration := if (3:ℚ) < s.duration then 3 else s.duration }
          else s)) :=
  ⟨by decide, by norm_num,
    updateAudio_sets_url_and_shrinks_only stW "s1" "u" 3 0 (by decide) (by norm_num)⟩

/-- Witness for C4: splitting `s1` (duration 5) at 0.1 s is rejected and the
state is returned unchanged. -/
theorem splitSegment_rejects_near_edges_witness :
    stW.present.segments.find? (fun s => s.id = "s1") = some segW ∧
    ((1/10 : ℚ) < 1/2 ∨ segW.duration - 1/2 < 1/10) ∧
    handleSplitSegment stW (fun _ => 0) "s1" (1/10) =
      (stW, some "Split point too close to edge.") :=
  ⟨rfl, by norm_num [segW],
    splitSegment_rejects_near_edges stW (fun _ => 0) "s1" (1/10) segW rfl
      (by norm_num [segW])⟩

/-- Witness for C7: deleting in a one-segment project is rejected with the
message and an unchanged present state; deleting `s2` in a two-segment project
removes exactly that segment, leaving one. -/
theorem deleteSegment_preserves_nonempty_witness :
    ((handleDeleteSegment stW (some "s1") true).1.present = stW.present ∧
      (handleDeleteSegment stW (some "s1") true).2 =
        some "Cannot delete the only segment.") ∧
    ((handleDeleteSegment st2 (some "s2") true).1.present.segments =
        st2.present.segments.filter (fun s => ¬ s.id = "s2") ∧
      (handleDeleteSegment st2 (some "s2") true).2 = none ∧
      (handleDeleteSegment st2 (some "s2") true).1.present.segments.length + 1 =
        st2.present.segments.length ∧
      1 ≤ (handleDeleteSegment st2 (some "s2") true).1.present.segments.length) := by
  have h1 := (deleteSegment_preserves_nonempty stW "s1").1 (by decide)
  have h2 := (deleteSegment_preserves_nonempty st2 "s2").2 (by decide)
  exact ⟨⟨h1.1, h1.2⟩,
    ⟨h2.1, h2.2.1, (h2.2.2.2 (by decide)).1, (h2.2.2.2 (by decide)).2⟩⟩

/-- Offset produced at each position of the xfade loop when all clip durations
are equal. -/
theorem xfadeLoop_replicate (d : ℚ) (m : ℕ) :
    ∀ (c : ℚ) (j : ℕ), j < m →
      (xfadeLoop c (List.replicate m d))[j]? =
        some (c + (j : ℚ) * (d - transitionDur) - transitionDur) := by
  induction m with
  | zero => intro c j hj; omega
  | succ m ih =>
    intro c j hj
    rw [List.replicate_succ]
    cases j with
    | zero =>
      simp [xfadeLoop]
    | succ j =>
      have hx : (xfadeLoop c (d :: List.replicate m d))[j + 1]? =
          (xfadeLoop (c + (d - transitionDur)) (List.replicate m d))[j]? := by
        simp [xfadeLoop]
      rw [hx, ih (c + (d - transitionDur)) j (by omega)]
      congr 1
      push_cast
      ring

/-- C2: in the ffmpeg renderer, a segment of effective duration `D` with
`N ≥ 1` clips renders each clip for `(D + (N-1)·0.5) / N` seconds, and the
cross-fade at the `j`-th clip boundary sits at the cumulative rendered time so
far minus the 0.5 s transition duration; for `D = 10`, `N = 2` this gives a
per-clip duration of 5.25 and a second-clip fade offset of 4.75. -/
theorem serverRenderer_crossfade_inflation (D : ℚ) (N : ℕ) (hN : 1 ≤ N) :
    perClipDuration D N = (D + ((N : ℚ) - 1) * (1/2)) / (N : ℚ) ∧
    (∀ j : ℕ, j + 1 < N →
      (xfadeOffsets (List.replicate N (perClipDuration D N)))[j]? =
        some (cumulativeRendered (perClipDuration D N) j - transitionDur)) ∧
    perClipDuration 10 2 = 21/4 ∧
    (xfadeOffsets (List.replicate 2 (perClipDuration 10 2)))[0]? = some (19/4) := by
  have hmax0 : max 0 ((N : ℤ) - 1) = (N : ℤ) - 1 := by omega
  have hmax1 : max 1 N = N := by omega
  have hper : perClipDuration D N = (D + ((N : ℚ) - 1) * (1/2)) / (N : ℚ) := by
    rw [perClipDuration, hmax0, hmax1, transitionDur]
    push_cast
    ring_nf
  refine ⟨hper, ?_, by norm_num [perClipDuration, transitionDur], ?_⟩
  · intro j hj
    set p := perClipDuration D N with hp
    have hrep : List.replicate N p = p :: List.replicate (N - 1) p := by
      cases N with
      | zero => omega
      | succ n => simp [List.replicate_succ]
    rw [hrep]
    show (xfadeLoop p (List.replicate (N - 1) p))[j]? = _
    rw [xfadeLoop_replicate p (N - 1) p j (by omega)]
    rw [cumulativeRendered]
    congr 1
    ring
  · have h2 : (2 : ℕ) - 1 = 1 := rfl
    rw [show List.replicate 2 (perClipDuration 10 2) =
        perClipDuration 10 2 :: List.replicate 1 (perClipDuration 10 2) by rfl]
    show (xfadeLoop (perClipDuration 10 2) (List.replicate 1 (perClipDuration 10 2)))[0]? = _
    rw [xfadeLoop_replicate (perClipDuration 10 2) 1 (perClipDuration 10 2) 0 (by omega)]
    norm_num [perClipDuration, transitionDur]

/-- Witness for C2 at the spec's scenario `D = 10`, `N = 2`. -/
theorem serverRenderer_crossfade_inflation_witness :
    (1 ≤ 2) ∧
    (perClipDuration 10 2 = ((10 : ℚ) + ((2 : ℚ) - 1) * (1/2)) / (2 : ℚ) ∧
      (∀ j : ℕ, j + 1 < 2 →
        (xfadeOffsets (List.replicate 2 (perClipDuration 10 2)))[j]? =
          some (cumulativeRendered (perClipDuration 10 2) j - transitionDur)) ∧
      perClipDuration 10 2 = 21/4 ∧
      (xfadeOffsets (List.replicate 2 (perClipDuration 10 2)))[0]? = some (19/4)) :=
  ⟨by decide, by
    have h := serverRenderer_crossfade_inflation 10 2 (by decide)
    exact_mod_cast h⟩

/-- A two-clip segment of duration 3 (id `s1`). -/
def segC8 : Segment := { segW with media := [clipA, clipB], duration := 3 }

/-- Editor state holding only `segC8`. -/
def stC8 : EditorState :=
  { past := [], present := { segments := [segC8], audioTracks := [] }, future := [] }

/-- C8: splitting the two-clip segment `segC8` at 1 s when both `Date.now()`
calls fall in the same millisecond (clock constantly 42) gives both clip copies
in segment B the *same* id `clip-42-split`: the id list of B is not duplicate
free, contradicting the per-clip id uniqueness the split is supposed to
maintain. -/
theorem split_mints_duplicate_clip_ids :
    ((handleSplitSegment stC8 (fun _ => 42) "s1" 1).1.present.segments.map
        (fun s => s.media.map (·.id))) =
      [["a", "b"], ["clip-42-split", "clip-42-split"]] ∧
    ¬ (((handleSplitSegment stC8 (fun _ => 42) "s1" 1).1.present.segments.getD 1
        undefinedSegment).media.map (·.id)).Nodup := by
  have hfind : stC8.present.segments.find? (fun s => s.id = "s1") = some segC8 := rfl
  have hcond : ¬ ((1 : ℚ) < 1/2 ∨ segC8.duration - 1/2 < 1) := by
    norm_num [segC8, segW]
  have hres : handleSplitSegment stC8 (fun _ => 42) "s1" 1 =
      (updateSegments stC8 (fun _ =>
        stC8.present.segments.take (stC8.present.segments.findIdx (fun s => s.id = "s1")) ++
          [(splitPieces segC8 (fun _ => 42) 1).1, (splitPieces segC8 (fun _ => 42) 1).2] ++
          stC8.present.segments.drop ((stC8.present.segments.findIdx (fun s => s.id = "s1")) + 1)),
        none) := by
    simp only [handleSplitSegment, hfind]
    rw [if_neg hcond]
  rw [hres]
  constructor
  · simp only [updateSegments, updateHistory, stC8, segC8, segW, splitPieces,
      List.enum, clipA, clipB]
    decide
  · simp only [updateSegments, updateHistory, stC8, segC8, segW, splitPieces,
      List.enum, clipA, clipB]
    decide

/-- A background track whose user-set volume is zero. -/
def zeroVolTrack : AudioClip :=
  { id := "bg0", url := "u0", name := "n0", atype := .music
    startTime := 0, duration := 5, volume := 0 }

/-- The spec's scenario track `{startTime: 12, duration: 5, volume: 0.5}`. -/
def bgTrack : AudioClip :=
  { id := "bg", url := "u", name := "n", atype := .music
    startTime := 12, duration := 5, volume := 1/2 }

/-- Unfolding equation for `trackContribution`. -/
theorem trackContribution_eq (tf : TrackFilter) (clipLen : ℚ) (sig : ℚ → ℚ) (t : ℚ) :
    trackContribution tf clipLen sig t =
      if ((tf.delayMs : ℚ) / 1000 ≤ t ∧ t < (tf.delayMs : ℚ) / 1000 + clipLen) then
        tf.volume * sig (t - (tf.delayMs : ℚ) / 1000)
      else 0 := rfl

/-- Counterexample for C9: the renderer computes the filter volume as
`track.volume || 0.5`, so a background clip with volume 0 is mixed at 0.5 — it
is not scaled by its own volume. -/
theorem background_track_volume_counterexample :
    (buildTrackFilter zeroVolTrack).volume ≠ zeroVolTrack.volume ∧
    (buildTrackFilter zeroVolTrack).volume = 1/2 := by
  constructor <;> norm_num [buildTrackFilter, zeroVolTrack]

/-- C9 (amended): every background track is delayed by
`round(startTime·1000)` ms and mixed with the narration under `duration=first`
with `dynaudnorm` loudness normalization; it is scaled by its own volume
whenever that volume is non-zero (a zero volume falls back to the 0.5
default).  The scenario clip `{startTime: 12, duration: 5, volume: 0.5}`
contributes silence outside `[12, 17)` and its signal attenuated by 0.5
inside. -/
theorem background_track_mixing (track : AudioClip) (tracks : List AudioClip)
    (sig : ℚ → ℚ) (t : ℚ) :
    (buildTrackFilter track).delayMs = round (track.startTime * 1000) ∧
    (track.volume ≠ 0 → (buildTrackFilter track).volume = track.volume) ∧
    (track.volume = 0 → (buildTrackFilter track).volume = 1/2) ∧
    (tracks ≠ [] → (buildAudioMix tracks).2 =
      some { inputs := tracks.length + 1, durationFirst := true, normalized := true }) ∧
    ((t < 12 ∨ 17 ≤ t) → trackContribution (buildTrackFilter bgTrack) 5 sig t = 0) ∧
    (12 ≤ t → t < 17 → trackContribution (buildTrackFilter bgTrack) 5 sig t =
      (1/2) * sig (t - 12)) := by
  have htf : buildTrackFilter bgTrack = { delayMs := 12000, volume := 1/2 } := by
    simp only [buildTrackFilter, bgTrack]
    norm_num [round_eq]
  refine ⟨rfl, ?_, ?_, ?_, ?_, ?_⟩
  · intro h
    simp [buildTrackFilter, h]
  · intro h
    simp [buildTrackFilter, h]
  · intro h
    have : 0 < tracks.length := List.length_pos.mpr h
    simp [buildAudioMix, this]
  · intro h
    rw [htf, trackContribution_eq]
    have e1 : (((12000 : ℤ) : ℚ)) / 1000 = 12 := by norm_num
    have hcon : ¬ ((((12000 : ℤ) : ℚ)) / 1000 ≤ t ∧
        t < (((12000 : ℤ) : ℚ)) / 1000 + 5) := by
      rw [e1]
      rintro ⟨h1, h2⟩
      rcases h with hl | hg
      · linarith
      · linarith
    rw [if_neg hcon]
  · intro h12 h17
    rw [htf, trackContribution_eq]
    have e1 : (((12000 : ℤ) : ℚ)) / 1000 = 12 := by norm_num
    have hwin : (((12000 : ℤ) : ℚ)) / 1000 ≤ t ∧
        t < (((12000 : ℤ) : ℚ)) / 1000 + 5 := by
      rw [e1]
      constructor <;> linarith
    rw [if_pos hwin, e1]

/-- Witness for C9 (amended) at `track = tracks.head = bgTrack`, a constant
signal and `t = 13` (inside the window). -/
theorem background_track_mixing_witness :
    (buildTrackFilter bgTrack).delayMs = round (bgTrack.startTime * 1000) ∧
    (bgTrack.volume ≠ 0 → (buildTrackFilter bgTrack).volume = bgTrack.volume) ∧
    (bgTrack.volume = 0 → (buildTrackFilter bgTrack).volume = 1/2) ∧
    (([bgTrack] : List AudioClip) ≠ [] → (buildAudioMix [bgTrack]).2 =
      some { inputs := [bgTrack].length + 1, durationFirst := true, normalized := true }) ∧
    (((13 : ℚ) < 12 ∨ (17 : ℚ) ≤ 13) →
      trackContribution (buildTrackFilter bgTrack) 5 (fun _ => 1) 13 = 0) ∧
    ((12 : ℚ) ≤ 13 → (13 : ℚ) < 17 →
      trackContribution (buildTrackFilter bgTrack) 5 (fun _ => 1) 13 =
        (1/2) * (fun _ : ℚ => (1 : ℚ)) (13 - 12)) :=
  background_track_mixing bgTrack [bgTrack] (fun _ => 1) 13

/-- Counterexample for C5: for a segment with narration text but missing word
timings (`segW`), the server export path still emits a caption — the full
narration text as one subtitle event spanning the whole segment. -/
theorem caption_fallback_in_server_export :
    segmentSubtitleEvents segW 5 = [{ start := 0, endTime := 5, text := "hello world" }] ∧
    segmentSubtitleEvents segW 5 ≠ [] := by
  constructor <;> simp [segmentSubtitleEvents, segW, createASSEvents]

/-- C5 (amended): with absent or empty word timings no caption is rendered in
the interactive preview (`renderKaraokeText`) nor in the in-browser canvas
export (`drawKaraokeText`); the server ffmpeg export instead burns in the
segment's full narration text as a single substitute subtitle across the whole
segment whenever the narration text is non-empty (and nothing when it is
empty). -/
theorem no_captions_without_timings (r : ResolvedFrame) (seg : Segment) (t d : ℚ)
    (hr : r.segment.wordTimings = none ∨ r.segment.wordTimings = some [])
    (hs : seg.wordTimings = none ∨ seg.wordTimings = some []) :
    renderKaraokeText (some r) = none ∧
    drawKaraokeText seg t = none ∧
    (seg.narration_text = "" → segmentSubtitleEvents seg d = []) ∧
    (seg.narration_text ≠ "" →
      segmentSubtitleEvents seg d = [{ start := 0, endTime := d, text := seg.narration_text }]) := by
  refine ⟨?_, ?_, ?_, ?_⟩
  · cases hst : r.segment.textOverlayStyle with
    | none => simp [renderKaraokeText, hst]
    | some style =>
      rcases hr with h | h <;>
        by_cases hn : r.segment.narration_text = "" <;>
          simp [renderKaraokeText, hst, h, hn]
  · cases hst : seg.textOverlayStyle with
    | none => simp [drawKaraokeText, hst]
    | some style =>
      rcases hs with h | h <;>
        by_cases hn : seg.narration_text = "" <;>
          simp [drawKaraokeText, hst, h, hn]
  · intro hn
    simp [segmentSubtitleEvents, hn]
  · intro hn
    rcases hs with h | h <;> simp [segmentSubtitleEvents, hn, createASSEvents, h]

/-- Witness for C5 (amended): a frame on `segW` (no timings, non-empty text)
at time 0 and export duration 3. -/
theorem no_captions_without_timings_witness :
    ((⟨0, segW, 0, 0⟩ : ResolvedFrame).segment.wordTimings = none ∨
      (⟨0, segW, 0, 0⟩ : ResolvedFrame).segment.wordTimings = some []) ∧
    (segW.wordTimings = none ∨ segW.wordTimings = some []) ∧
    (renderKaraokeText (some ⟨0, segW, 0, 0⟩) = none ∧
      drawKaraokeText segW 0 = none ∧
      (segW.narration_text = "" → segmentSubtitleEvents segW 3 = []) ∧
      (segW.narration_text ≠ "" →
        segmentSubtitleEvents segW 3 =
          [{ start := 0, endTime := 3, text := segW.narration_text }])) :=
  ⟨Or.inl rfl, Or.inl rfl,
    no_captions_without_timings ⟨0, segW, 0, 0⟩ segW 0 3 (Or.inl rfl) (Or.inl rfl)⟩

/-- Splitting a list of word timings whose end times are monotone into the
`end ≤ s` part followed by the `end > s` part reassembles the original list. -/
theorem filter_le_append_filter_gt (s : ℚ) (ts : List WordTiming)
    (h : ts.Pairwise (fun a b => a.endTime ≤ b.endTime)) :
    ts.filter (fun w => w.endTime ≤ s) ++ ts.filter (fun w => s < w.endTime) = ts := by
  induction ts with
  | nil => rfl
  | cons w rest ih =>
    rcases List.pairwise_cons.mp h with ⟨hw, hrest⟩
    by_cases hws : w.endTime ≤ s
    · have h2 : ¬ s < w.endTime := not_lt.mpr hws
      simp only [List.filter_cons, hws, h2, decide_eq_true_eq, if_true, if_false,
        decide_eq_false_iff_not, List.cons_append]
      exact congrArg (w :: ·) (ih hrest)
    · have hsw : s < w.endTime := not_le.mp hws
      have hall : rest.filter (fun w => w.endTime ≤ s) = [] := by
        rw [List.filter_eq_nil_iff]
        intro a ha
        simp only [decide_eq_true_eq]
        exact not_le.mpr (lt_of_lt_of_le hsw (hw a ha))
      have hall2 : rest.filter (fun w => s < w.endTime) = rest := by
        rw [List.filter_eq_self]
        intro a ha
        simp only [decide_eq_true_eq]
        exact lt_of_lt_of_le hsw (hw a ha)
      simp [List.filter_cons, hws, hsw, hall, hall2]

/-- C3: splitting a segment with word timings (monotone end times, words
joining back to the narration text) at a valid split point yields halves whose
durations sum to the original, whose timings are the `end ≤ splitTime` part
and the re-based remainder, and whose timing-derived texts joined together
reconstruct the original narration text; the new pair replaces the original in
the segment list. -/
theorem split_rejoin (st : EditorState) (clock : ℕ → ℕ) (segmentId : String)
    (splitTime : ℚ) (original : Segment) (ts : List WordTiming)
    (hfind : st.present.segments.find? (fun s => s.id = segmentId) = some original)
    (hts : original.wordTimings = some ts) (hne : ts ≠ [])
    (hsorted : ts.Pairwise (fun a b => a.endTime ≤ b.endTime))
    (hjoin : joinWords (ts.map (·.word)) = original.narration_text)
    (hv1 : 1/2 ≤ splitTime) (hv2 : splitTime ≤ original.duration - 1/2) :
    (splitPieces original clock splitTime).1.duration +
        (splitPieces original clock splitTime).2.duration = original.duration ∧
    (splitPieces original clock splitTime).1.wordTimings =
      some (ts.filter (fun w => w.endTime ≤ splitTime)) ∧
    (splitPieces original clock splitTime).2.wordTimings =
      some ((ts.filter (fun w => splitTime < w.endTime)).map (fun w =>
        { w with start := w.start - splitTime, endTime := w.endTime - splitTime })) ∧
    joinWords
        ((((splitPieces original clock splitTime).1.wordTimings.getD []).map (·.word)) ++
          (((splitPieces original clock splitTime).2.wordTimings.getD []).map (·.word))) =
      original.narration_text ∧
    (handleSplitSegment st clock segmentId splitTime).2 = none ∧
    (handleSplitSegment st clock segmentId splitTime).1.present.segments =
      st.present.segments.take (st.present.segments.findIdx (fun s => s.id = segmentId)) ++
        [(splitPieces original clock splitTime).1, (splitPieces original clock splitTime).2] ++
        st.present.segments.drop
          ((st.present.segments.findIdx (fun s => s.id = segmentId)) + 1) := by
  have hlen : 0 < ts.length := List.length_pos.mpr hne
  have hA : (splitPieces original clock splitTime).1.wordTimings =
      some (ts.filter (fun w => w.endTime ≤ splitTime)) := by
    simp [splitPieces, hts, hlen]
  have hB : (splitPieces original clock splitTime).2.wordTimings =
      some ((ts.filter (fun w => splitTime < w.endTime)).map (fun w =>
        { w with start := w.start - splitTime, endTime := w.endTime - splitTime })) := by
    simp [splitPieces, hts, hlen]
  have hdurA : (splitPieces original clock splitTime).1.duration = splitTime := by
    simp [splitPieces, hts, hlen]
  have hdurB : (splitPieces original clock splitTime).2.duration =
      original.duration - splitTime := by
    simp [splitPieces, hts, hlen]
  have hvalid : ¬ (splitTime < 1/2 ∨ original.duration - 1/2 < splitTime) := by
    rintro (h | h)
    · linarith
    · linarith
  have hop : handleSplitSegment st clock segmentId splitTime =
      (updateSegments st (fun _ =>
        st.present.segments.take (st.present.segments.findIdx (fun s => s.id = segmentId)) ++
          [(splitPieces original clock splitTime).1, (splitPieces original clock splitTime).2] ++
          st.present.segments.drop
            ((st.present.segments.findIdx (fun s => s.id = segmentId)) + 1)),
        none) := by
    simp only [handleSplitSegment, hfind]
    rw [if_neg hvalid]
  refine ⟨by rw [hdurA, hdurB]; ring, hA, hB, ?_, by rw [hop], by rw [hop]; rfl⟩
  rw [hA, hB]
  simp only [Option.getD_some, List.map_map]
  have hword : ((ts.filter (fun w => splitTime < w.endTime)).map
      ((fun t : WordTiming => t.word) ∘ (fun w =>
        ({ w with start := w.start - splitTime, endTime := w.endTime - splitTime } : WordTiming)))) =
      (ts.filter (fun w => splitTime < w.endTime)).map (·.word) := by
    apply List.map_congr_left
    intro a _
    rfl
  rw [hword, ← List.map_append, filter_le_append_filter_gt splitTime ts hsorted, hjoin]

/-- Concrete word timings for the split witness. -/
def tsW : List WordTiming :=
  [{ word := "hello", start := 0, endTime := 1 },
   { word := "world", start := 1, endTime := 2 }]

/-- `segW` equipped with word timings. -/
def segSplitW : Segment := { segW with wordTimings := some tsW }

/-- Editor state holding only `segSplitW`. -/
def stSplitW : EditorState :=
  { past := [], present := { segments := [segSplitW], audioTracks := [] }, future := [] }

/-- Witness for C3: splitting `segSplitW` (duration 5, timings for
"hello world") at 1.5 s. -/
theorem split_rejoin_witness :
    (splitPieces segSplitW (fun _ => 0) (3/2)).1.duration +
        (splitPieces segSplitW (fun _ => 0) (3/2)).2.duration = segSplitW.duration ∧
    (splitPieces segSplitW (fun _ => 0) (3/2)).1.wordTimings =
      some (tsW.filter (fun w => w.endTime ≤ 3/2)) ∧
    (splitPieces segSplitW (fun _ => 0) (3/2)).2.wordTimings =
      some ((tsW.filter (fun w => (3/2 : ℚ) < w.endTime)).map (fun w =>
        { w with start := w.start - 3/2, endTime := w.endTime - 3/2 })) ∧
    joinWords
        ((((splitPieces segSplitW (fun _ => 0) (3/2)).1.wordTimings.getD []).map (·.word)) ++
          (((splitPieces segSplitW (fun _ => 0) (3/2)).2.wordTimings.getD []).map (·.word))) =
      segSplitW.narration_text ∧
    (handleSplitSegment stSplitW (fun _ => 0) "s1" (3/2)).2 = none ∧
    (handleSplitSegment stSplitW (fun _ => 0) "s1" (3/2)).1.present.segments =
      stSplitW.present.segments.take
          (stSplitW.present.segments.findIdx (fun s => s.id = "s1")) ++
        [(splitPieces segSplitW (fun _ => 0) (3/2)).1,
          (splitPieces segSplitW (fun _ => 0) (3/2)).2] ++
        stSplitW.present.segments.drop
          ((stSplitW.present.segments.findIdx (fun s => s.id = "s1")) + 1) :=
  split_rejoin stSplitW (fun _ => 0) "s1" (3/2) segSplitW tsW rfl rfl
    (List.cons_ne_nil _ _)
    (by norm_num [tsW, List.pairwise_cons])
    (by decide)
    (by norm_num)
    (by norm_num [segSplitW, segW])

/-- A list of positive-duration segments has non-negative total duration. -/
theorem durSum_nonneg (segs : List Segment)
    (hd : ∀ s ∈ segs, 0 < s.duration) : 0 ≤ durSum segs := by
  induction segs with
  | nil => simp [durSum]
  | cons s rest ih =>
    have h1 : 0 < s.duration := hd s (List.mem_cons_self s rest)
    have h2 : 0 ≤ durSum rest := ih (fun x hx => hd x (List.mem_cons_of_mem s hx))
    simp only [durSum, List.map_cons, List.sum_cons]
    have : durSum rest = (rest.map (·.duration)).sum := rfl
    linarith [this ▸ h2]

/-- `durSum` over a `cons`. -/
theorem durSum_cons (s : Segment) (rest : List Segment) :
    durSum (s :: rest) = s.duration + durSum rest := by
  simp [durSum]

/-- Joint characterisation of the two segment-lookup loops: for a time inside
the (shifted) timeline, the preview's `resolveAux` walk and the export's
`findIndex` over precomputed start times find the same segment index `k`, the
preview resolves to the claimed local time and clip index, and the start-time
table holds the prefix sum at `k`. -/
theorem locate_spec (segs : List Segment) :
    ∀ (base t : ℚ) (idx : ℕ),
      (∀ s ∈ segs, 0 < s.duration) → base ≤ t → t < base + durSum segs →
      ∃ (k : ℕ) (seg : Segment),
        segs[k]? = some seg ∧
        (startTimesFrom base segs)[k]? = some (base + durSum (segs.take k)) ∧
        resolveAux t base idx segs =
          some ⟨idx + k, seg, t - (base + durSum (segs.take k)),
            clipIndexOf seg (t - (base + durSum (segs.take k)))⟩ ∧
        ((startTimesFrom base segs).zip segs).findIdx?
            (fun p => decide (p.1 ≤ t ∧ t < p.1 + p.2.duration)) = some k := by
  induction segs with
  | nil =>
    intro base t idx hd hbt hlt
    rw [durSum] at hlt
    simp at hlt
    linarith
  | cons s rest ih =>
    intro base t idx hd hbt hlt
    by_cases hcase : t < base + s.duration
    · refine ⟨0, s, by simp, ?_, ?_, ?_⟩
      · simp [startTimesFrom, durSum]
      · simp only [resolveAux]
        rw [if_pos ⟨hbt, hcase⟩]
        simp [durSum]
      · simp only [startTimesFrom, List.zip_cons_cons, List.findIdx?_cons]
        have : (decide (base ≤ t ∧ t < base + s.duration)) = true := by
          simp [hbt, hcase]
        rw [this]
        rfl
    · have hge : base + s.duration ≤ t := not_lt.mp hcase
      have hd' : ∀ x ∈ rest, 0 < x.duration :=
        fun x hx => hd x (List.mem_cons_of_mem s hx)
      have hlt' : t < (base + s.duration) + durSum rest := by
        rw [durSum_cons] at hlt
        linarith
      obtain ⟨k, seg, hk, hst, hres, hfind⟩ :=
        ih (base + s.duration) t (idx + 1) hd' hge hlt'
      have hsum : base + s.duration + durSum (rest.take k) =
          base + durSum ((s :: rest).take (k + 1)) := by
        rw [List.take_succ_cons, durSum_cons]
        ring
      refine ⟨k + 1, seg, by simpa using hk, ?_, ?_, ?_⟩
      · have hcons : (startTimesFrom base (s :: rest))[k + 1]? =
            (startTimesFrom (base + s.duration) rest)[k]? := by
          rw [show startTimesFrom base (s :: rest) =
            base :: startTimesFrom (base + s.duration) rest from rfl]
          simp
        rw [hcons, hst, hsum]
      · simp only [resolveAux]
        rw [if_neg (fun hc => hcase hc.2)]
        rw [hres, hsum]
        have hidx : idx + 1 + k = idx + (k + 1) := by omega
        rw [hidx]
      · simp only [startTimesFrom, List.zip_cons_cons, List.findIdx?_cons]
        have : (decide (base ≤ t ∧ t < base + s.duration)) = false := by
          simp [hcase]
        rw [this]
        simpa using hfind

/-- Past the (shifted) end of the timeline the preview walk returns `none`. -/
theorem resolveAux_none (segs : List Segment) :
    ∀ (base t : ℚ) (idx : ℕ), (∀ s ∈ segs, 0 < s.duration) →
      base + durSum segs ≤ t → resolveAux t base idx segs = none := by
  induction segs with
  | nil => intro base t idx hd hle; rfl
  | cons s rest ih =>
    intro base t idx hd hle
    have hrest : 0 ≤ durSum rest :=
      durSum_nonneg rest (fun x hx => hd x (List.mem_cons_of_mem s hx))
    rw [durSum_cons] at hle
    have hcond : ¬ (base ≤ t ∧ t < base + s.duration) := by
      rintro ⟨_, hlt2⟩
      linarith
    simp only [resolveAux]
    rw [if_neg hcond]
    exact ih (base + s.duration) t (idx + 1)
      (fun x hx => hd x (List.mem_cons_of_mem s hx)) (by linarith)

/-- C1: with positive segment durations and non-empty media lists, the
interactive preview resolver (`currentRenderState`) and the canvas export
renderer's per-frame lookup (`renderFrameResolve`) select, for every global
time `0 ≤ t < totalDuration`, the same segment (same index `k`), the same
`localTime = t - Σ previous durations` and the same
`clipIndex = min(media.length-1, ⌊localTime / (duration/media.length)⌋)`;
at or past the end of the timeline the preview resolver returns `null`. -/
theorem preview_export_parity (segments : List Segment)
    (hd : ∀ s ∈ segments, 0 < s.duration)
    (_hm : ∀ s ∈ segments, s.media ≠ []) :
    (∀ t : ℚ, 0 ≤ t → t < durSum segments →
      ∃ (k : ℕ) (seg : Segment),
        segments[k]? = some seg ∧
        currentRenderState t segments =
          some ⟨k, seg, t - durSum (segments.take k),
            clipIndexOf seg (t - durSum (segments.take k))⟩ ∧
        renderFrameResolve segments t =
          ⟨k, seg, t - durSum (segments.take k),
            clipIndexOf seg (t - durSum (segments.take k))⟩ ∧
        clipIndexOf seg (t - durSum (segments.take k)) =
          min ((seg.media.length : ℤ) - 1)
            ⌊(t - durSum (segments.take k)) /
              (seg.duration / (seg.media.length : ℚ))⌋) ∧
    (∀ t : ℚ, durSum segments ≤ t → currentRenderState t segments = none) := by
  constructor
  · intro t h0 hlt
    obtain ⟨k, seg, hk, hst, hres, hfind⟩ :=
      locate_spec segments 0 t 0 hd h0 (by linarith)
    simp only [zero_add] at hres hst
    refine ⟨k, seg, hk, ?_, ?_, rfl⟩
    · rw [currentRenderState, hres]
    · rw [renderFrameResolve]
      simp only [segmentStartTimes]
      rw [hfind]
      have hgetseg : segments.getD k undefinedSegment = seg := by
        rw [List.getD_eq_getElem?_getD, hk]
        rfl
      have hgetst : (startTimesFrom 0 segments).getD k 0 = durSum (segments.take k) := by
        rw [List.getD_eq_getElem?_getD, hst]
        rfl
      rw [hgetseg, hgetst]
  · intro t hle
    exact resolveAux_none segments 0 t 0 hd (by linarith)

/-- A concrete two-segment timeline (durations 5 and 3, the second with two
clips) for the parity witness. -/
def segsC1 : List Segment :=
  [segW, { segW with id := "s2", duration := 3, media := [clipA, clipB] }]

/-- Witness for C1 on `segsC1`. -/
theorem preview_export_parity_witness :
    (∀ s ∈ segsC1, 0 < s.duration) ∧ (∀ s ∈ segsC1, s.media ≠ []) ∧
    ((∀ t : ℚ, 0 ≤ t → t < durSum segsC1 →
      ∃ (k : ℕ) (seg : Segment),
        segsC1[k]? = some seg ∧
        currentRenderState t segsC1 =
          some ⟨k, seg, t - durSum (segsC1.take k),
            clipIndexOf seg (t - durSum (segsC1.take k))⟩ ∧
        renderFrameResolve segsC1 t =
          ⟨k, seg, t - durSum (segsC1.take k),
            clipIndexOf seg (t - durSum (segsC1.take k))⟩ ∧
        clipIndexOf seg (t - durSum (segsC1.take k)) =
          min ((seg.media.length : ℤ) - 1)
            ⌊(t - durSum (segsC1.take k)) /
              (seg.duration / (seg.media.length : ℚ))⌋) ∧
    (∀ t : ℚ, durSum segsC1 ≤ t → currentRenderState t segsC1 = none)) := by
  have hd : ∀ s ∈ segsC1, 0 < s.duration := by
    intro s hs
    simp only [segsC1, List.mem_cons, List.not_mem_nil, or_false] at hs
    rcases hs with rfl | rfl <;> norm_num [segW]
  have hm : ∀ s ∈ segsC1, s.media ≠ [] := by
    intro s hs
    simp only [segsC1, List.mem_cons, List.not_mem_nil, or_false] at hs
    rcases hs with rfl | rfl <;> simp [segW]
  exact ⟨hd, hm, preview_export_parity segsC1 hd hm⟩

end Magistory
